import Mathlib

/-!
Car Rush game loop: a shallow embedding.

This file embeds the core simulation of the Car Rush 2D game (the
`useGameLoop` hook: road generation, coin spawning, collision detection,
score/milestone bookkeeping, and the per-frame game loop) as executable
Lean definitions, and proves the spec's claims about it.

Modelling conventions:
* JavaScript numbers are modelled as exact rationals (`ℚ`); the game's
  arithmetic is plain field arithmetic on small literals.
* `Math.random()` draws are modelled as oracle inputs: each call site
  receives its draws from an explicitly passed stream, universally
  quantified in the theorems.
* `Math.cos` / `Math.sin` of the car's heading are likewise supplied as
  per-tick oracle inputs (`TickInput.c`, `TickInput.s`); where a claim
  needs it, the hypothesis `-1 ≤ s ≤ 1` is imposed.
* The source compares Euclidean distances `Math.sqrt (dx*dx + dy*dy)`
  against nonnegative thresholds.  Since `sqrt` is monotone and both
  sides are nonnegative, `sqrt d < t ↔ d < t^2`; the embedding keeps the
  exact squared quantities so every definition stays computable.
* The React state setters (`setScore`, `setIsGameOver`) and the ref cells
  (`actionTriggeredRef`) become ordinary record fields; the deferred
  `setTimeout(cb, 0)` dispatch of the milestone callback is counted in
  `callbackCount` (each scheduled dispatch runs the callback exactly once).
-/

namespace CarRush

/-- `CANVAS_WIDTH = 800` from the source constants. -/
def CANVAS_WIDTH : ℚ := 800

/-- `CANVAS_HEIGHT = 600`. -/
def CANVAS_HEIGHT : ℚ := 600

/-- `CAR_WIDTH = 64`. -/
def CAR_WIDTH : ℚ := 64

/-- `CAR_HEIGHT = 32`. -/
def CAR_HEIGHT : ℚ := 32

/-- `COIN_SIZE = 24`. -/
def COIN_SIZE : ℚ := 24

/-- `ROAD_WIDTH = 400`. -/
def ROAD_WIDTH : ℚ := 400

/-- `TURN_SPEED = 0.08` radians per frame. -/
def TURN_SPEED : ℚ := 2/25

/-- `MOVE_SPEED = 6` pixels per frame while the spacebar is held. -/
def MOVE_SPEED : ℚ := 6

/-- `SEGMENT_WIDTH = 60`. -/
def SEGMENT_WIDTH : ℚ := 60

/-- `ROAD_EXTEND_THRESHOLD = 200`: extend the road when the last road
point's screen y rises above `-ROAD_EXTEND_THRESHOLD`. -/
def ROAD_EXTEND_THRESHOLD : ℚ := 200

/-- `MAX_SCORE = 20000`. -/
def MAX_SCORE : ℕ := 20000

/-- `ACTION_SCORE_THRESHOLD = 300`. -/
def ACTION_SCORE_THRESHOLD : ℕ := 300

/-- A road path vertex `{x, y}`. -/
structure Point where
  x : ℚ
  y : ℚ
deriving DecidableEq, Repr

/-- A coin `{x, y, collected}`. -/
structure Coin where
  x : ℚ
  y : ℚ
  collected : Bool
deriving DecidableEq, Repr

/-- The car `{x, y, angle, speed}`.  The angle participates in the
simulation only through `Math.cos` / `Math.sin`, which the embedding
receives as oracle inputs, so its (irrational) initial value `-π/2` is
represented by the rational stand-in `INIT_ANGLE`; no claim depends on
the angle's numeric value. -/
structure Car where
  x : ℚ
  y : ℚ
  angle : ℚ
  speed : ℚ
deriving DecidableEq, Repr

/-- Rational stand-in for the initial heading `-Math.PI / 2` (see `Car`). -/
def INIT_ANGLE : ℚ := 0

/-- The mutable game state held in `gameStateRef`, the React state
(`score`, `speed`, `isGameOver`) and the latch ref `actionTriggeredRef`,
plus the instrumentation field `callbackCount` counting how many times
the milestone callback `onScoreThresholdReached` has been dispatched. -/
structure GameState where
  car : Car
  coins : List Coin
  roadPath : List Point
  cameraOffsetY : ℚ
  score : ℕ
  speed : ℚ
  gameOver : Bool
  actionTriggered : Bool
  callbackCount : ℕ
deriving DecidableEq, Repr

/-- Clamp an x coordinate into road bounds:
`Math.max(ROAD_WIDTH / 2, Math.min(CANVAS_WIDTH - ROAD_WIDTH / 2, x))`. -/
def clampRoadX (x : ℚ) : ℚ :=
  max (ROAD_WIDTH / 2) (min (CANVAS_WIDTH - ROAD_WIDTH / 2) x)

/-- One iteration of the road-building loop shared by `initializeRoad` and
`extendRoad`: drop y by a segment, drift left/right on every third
segment (`(cnt + i) % 3 === 0`, direction decided by a random draw), and
clamp x into road bounds.  `r` is the `Math.random()` draw for the
direction choice (consulted only on drifting segments). -/
def roadStep (cnt i : ℕ) (r : ℚ) (prev : Point) : Point :=
  let y := prev.y - SEGMENT_WIDTH
  let direction : ℚ := if (cnt + i) % 3 == 0 then (if r > 1/2 then 1 else -1) else 0
  let x := clampRoadX (prev.x + direction * (SEGMENT_WIDTH * (4/5)))
  ⟨x, y⟩

/-- The `for` loop body of `extendRoad`, run `fuel` times starting at
iteration index `i`: each iteration appends a road point via `roadStep`
and, with a `Math.random() > 0.4` draw, also a coin at the new point
offset laterally by `(Math.random() - 0.5) * 40`.  The oracle `rnd`
yields per-iteration draws `(direction, coinChance, coinOffset)`. -/
def extendLoop (rnd : ℕ → ℚ × ℚ × ℚ) (cnt : ℕ) :
    ℕ → Point → ℕ → List Point × List Coin
  | _, _, 0 => ([], [])
  | i, prev, fuel + 1 =>
    let pt := roadStep cnt i (rnd i).1 prev
    let newCoins : List Coin :=
      if (rnd i).2.1 > 2/5 then [⟨pt.x + ((rnd i).2.2 - 1/2) * 40, pt.y, false⟩] else []
    let rest := extendLoop rnd cnt (i + 1) pt fuel
    (pt :: rest.1, newCoins ++ rest.2)

/-- `extendRoad`: reads the last road point (unguarded in the source —
`roadPath[roadPath.length - 1].y` throws on an empty array, modelled by
the `none` branch returning the state unchanged; provably unreachable
after initialization), then appends 5 segments and their coins.
`currentSegmentCount` is the path length snapshotted before the loop. -/
def extendRoad (rnd : ℕ → ℚ × ℚ × ℚ) (path : List Point) (coins : List Coin) :
    List Point × List Coin :=
  match path.getLast? with
  | none => (path, coins)
  | some lastPoint =>
    let out := extendLoop rnd path.length 0 lastPoint 5
    (path ++ out.1, coins ++ out.2)

/-- The `for` loop body of `initializeRoad`, run `fuel` times from
iteration index `i`: identical drift rule with `i % 3 === 0` (here
`roadStep` with `cnt = 0`), no coins. -/
def initLoop (rdir : ℕ → ℚ) : ℕ → Point → ℕ → List Point
  | _, _, 0 => []
  | i, prev, fuel + 1 =>
    let pt := roadStep 0 i (rdir i) prev
    pt :: initLoop rdir (i + 1) pt fuel

/-- `initializeRoad`: starts at `(CANVAS_WIDTH / 2, CANVAS_HEIGHT)` and
appends 15 zig-zag segments. -/
def initializeRoad (rdir : ℕ → ℚ) : List Point :=
  let start : Point := ⟨CANVAS_WIDTH / 2, CANVAS_HEIGHT⟩
  start :: initLoop rdir 0 start 15

/-- `initializeCoins`: for `i = 1` to `roadPath.length - 2`, with
probability-draw `Math.random() > 0.4`, place a coin at the midpoint of
road points `i` and `i+1` with lateral offset `(Math.random() - 0.5) * 40`.
The oracle `rnd` yields per-index draws `(coinChance, coinOffset)`. -/
def initializeCoins (rnd : ℕ → ℚ × ℚ) (path : List Point) : List Coin :=
  (List.range' 1 (path.length - 1 - 1)).filterMap fun i =>
    if (rnd i).1 > 2/5 then
      let point := path.getD i ⟨0, 0⟩
      let nextPoint := path.getD (i + 1) ⟨0, 0⟩
      some ⟨(point.x + nextPoint.x) / 2 + ((rnd i).2 - 1/2) * 40,
            (point.y + nextPoint.y) / 2, false⟩
    else none

/-- Squared Euclidean distance between two points (the source computes
`Math.sqrt` of this and compares with a nonnegative threshold; the
embedding keeps the square). -/
def distSq (x1 y1 x2 y2 : ℚ) : ℚ :=
  (x1 - x2) * (x1 - x2) + (y1 - y2) * (y1 - y2)

/-- The per-segment distance computation inside `isCarOnRoad`, squared:
project the car onto the segment's line (`param = dot / lenSq`, with
`param = -1` when `lenSq` is zero so no division happens), branch on
`param < 0` / `param > 1` / interior, and return the squared distance to
the resulting point `(xx, yy)`. -/
def segDistSq (cx cy : ℚ) (p1 p2 : Point) : ℚ :=
  let A := cx - p1.x
  let B := cy - p1.y
  let C := p2.x - p1.x
  let D := p2.y - p1.y
  let dot := A * C + B * D
  let lenSq := C * C + D * D
  let param : ℚ := if lenSq ≠ 0 then dot / lenSq else -1
  let xx := if param < 0 then p1.x else if param > 1 then p2.x else p1.x + param * C
  let yy := if param < 0 then p1.y else if param > 1 then p2.y else p1.y + param * D
  distSq cx cy xx yy

/-- The squared on-road threshold: the source compares the minimal
segment distance with `ROAD_WIDTH / 2 - 20` (the green-border margin). -/
def onRoadThreshSq : ℚ := (ROAD_WIDTH / 2 - 20) * (ROAD_WIDTH / 2 - 20)

/-- The per-segment squared distances scanned by `isCarOnRoad`, one for
each consecutive pair of road points. -/
def segDists (car : Car) (path : List Point) : List ℚ :=
  (path.zip path.tail).map fun pq => segDistSq car.x car.y pq.1 pq.2

/-- The running minimum that `isCarOnRoad` folds over the segment
distances, starting from `Infinity`; `none` models an `Infinity` that no
segment ever lowered (fewer than 2 road points). -/
def minSegDistSq (car : Car) (path : List Point) : Option ℚ :=
  match segDists car path with
  | [] => none
  | d :: ds => some (ds.foldl min d)

/-- `isCarOnRoad`: running minimum over all segments starting from
`Infinity`, then `minDistance < ROAD_WIDTH / 2 - 20`.  An empty segment
list leaves the minimum at `Infinity`, so the comparison is false. -/
def isCarOnRoad (car : Car) (path : List Point) : Bool :=
  match minSegDistSq car path with
  | none => false
  | some m => decide (m < onRoadThreshSq)

/-- `checkCollision`: car picks up a coin when the Euclidean distance of
centers is below `(max(CAR_WIDTH, CAR_HEIGHT) + COIN_SIZE) / 2`
(squared here). -/
def checkCollision (car : Car) (cx cy : ℚ) : Bool :=
  decide (distSq car.x car.y cx cy <
    ((max CAR_WIDTH CAR_HEIGHT + COIN_SIZE) / 2) * ((max CAR_WIDTH CAR_HEIGHT + COIN_SIZE) / 2))

/-- Accumulator threaded through the coin `forEach`: the React `score`,
the `actionTriggeredRef` latch, the count of dispatched milestone
callbacks, and the `isGameOver` flag. -/
structure CoinAcc where
  score : ℕ
  actionTriggered : Bool
  callbackCount : ℕ
  gameOver : Bool
deriving DecidableEq, Repr

/-- One iteration of the coin `forEach`: skip collected coins; skip
coins whose screen y (`coin.y + cameraOffsetY`) lies outside
`[-50, CANVAS_HEIGHT + 50]`; otherwise on collision mark collected,
add 10 to the score, dispatch the milestone callback if the new score
reaches `ACTION_SCORE_THRESHOLD` and the latch is clear (setting the
latch), and end the game if the new score reaches `MAX_SCORE`. -/
def coinStep (car : Car) (cam : ℚ) (acc : CoinAcc) (coin : Coin) : CoinAcc × Coin :=
  if coin.collected then (acc, coin) else
  let coinScreenY := coin.y + cam
  if coinScreenY < -50 ∨ coinScreenY > CANVAS_HEIGHT + 50 then (acc, coin) else
  if checkCollision car coin.x coinScreenY then
    let newScore := acc.score + 10
    let fire := decide (ACTION_SCORE_THRESHOLD ≤ newScore) && !acc.actionTriggered
    ({ score := newScore
       actionTriggered := if fire then true else acc.actionTriggered
       callbackCount := if fire then acc.callbackCount + 1 else acc.callbackCount
       gameOver := acc.gameOver || decide (MAX_SCORE ≤ newScore) },
     { coin with collected := true })
  else (acc, coin)

/-- The coin `forEach` over the whole coin list: threads the accumulator
left-to-right through `coinStep`, rebuilding the (possibly mutated)
coin list in order. -/
def coinPass (car : Car) (cam : ℚ) (acc : CoinAcc) : List Coin → CoinAcc × List Coin
  | [] => (acc, [])
  | coin :: rest =>
    let out := coinStep car cam acc coin
    let restOut := coinPass car cam out.1 rest
    (restOut.1, out.2 :: restOut.2)

/-- The per-tick inputs sampled by `gameLoop`: the arrow-key and
spacebar membership tests on `keysPressed`, the external `isPaused`
flag, the oracle values of `Math.cos` / `Math.sin` at the car's
post-turn heading, and the random draws for a potential `extendRoad`
call this tick. -/
structure TickInput where
  left : Bool
  right : Bool
  thrust : Bool
  paused : Bool
  c : ℚ
  s : ℚ
  rnd : ℕ → ℚ × ℚ × ℚ

/-- The y coordinate of the last path point,
`roadPath[roadPath.length - 1].y`; the unguarded array access is
modelled with a default that is provably unreachable in runs. -/
def lastY (path : List Point) : ℚ :=
  ((path.getLast?).map Point.y).getD 0

/-- The screen y of the last road point (`topOfRoad` in the source). -/
def topOfRoad (st : GameState) : ℚ :=
  lastY st.roadPath + st.cameraOffsetY

/-- The movement phase of one `gameLoop` tick: apply turning, then — only
while the spacebar is held — advance the car by
`(cos angle, sin angle) * MOVE_SPEED` (the trigonometric values arrive
as the oracle fields `inp.c`, `inp.s`), extend the road when `topOfRoad`
has risen above `-ROAD_EXTEND_THRESHOLD`, and recenter the camera
whenever the car's y went above `CANVAS_HEIGHT / 2`. -/
def movePhase (st : GameState) (inp : TickInput) : GameState :=
  let angle0 := st.car.angle - (if inp.left then TURN_SPEED else 0)
  let angle := angle0 + (if inp.right then TURN_SPEED else 0)
  if inp.thrust then
    let newX := st.car.x + inp.c * MOVE_SPEED
    let newY := st.car.y + inp.s * MOVE_SPEED
    let ext :=
      if topOfRoad st > -ROAD_EXTEND_THRESHOLD
      then extendRoad inp.rnd st.roadPath st.coins
      else (st.roadPath, st.coins)
    let adjusted :=
      if newY < CANVAS_HEIGHT / 2
      then (CANVAS_HEIGHT / 2, st.cameraOffsetY + (CANVAS_HEIGHT / 2 - newY))
      else (newY, st.cameraOffsetY)
    { st with
      car := ⟨newX, adjusted.1, angle, MOVE_SPEED⟩
      roadPath := ext.1
      coins := ext.2
      cameraOffsetY := adjusted.2
      speed := MOVE_SPEED }
  else
    { st with
      car := { st.car with angle := angle, speed := 0 }
      speed := 0 }

/-- The termination checks of one tick: `isMoving && !isCarOnRoad(car)`
sets game over (the off-road test is short-circuited away while the
spacebar is up), and independently `car.x < 0 || car.x > CANVAS_WIDTH`
sets game over regardless of movement. -/
def checkPhase (st : GameState) (inp : TickInput) : GameState :=
  let go1 := st.gameOver || (inp.thrust && !isCarOnRoad st.car st.roadPath)
  let go2 := go1 || decide (st.car.x < 0) || decide (st.car.x > CANVAS_WIDTH)
  { st with gameOver := go2 }

/-- The coin phase of one tick: run the coin `forEach` and fold the
resulting accumulator back into the state. -/
def coinPhase (st : GameState) : GameState :=
  let out := coinPass st.car st.cameraOffsetY
    ⟨st.score, st.actionTriggered, st.callbackCount, st.gameOver⟩ st.coins
  { st with
    coins := out.2
    score := out.1.score
    actionTriggered := out.1.actionTriggered
    callbackCount := out.1.callbackCount
    gameOver := out.1.gameOver }

/-- One full `gameLoop` tick: a no-op while paused or after game over
(the early return), otherwise movement, termination checks, then the
coin pass. -/
def tick (st : GameState) (inp : TickInput) : GameState :=
  if st.gameOver || inp.paused then st
  else coinPhase (checkPhase (movePhase st inp) inp)

/-- A run of the game: fold `tick` over a list of per-tick inputs. -/
def run (st : GameState) (inputs : List TickInput) : GameState :=
  inputs.foldl tick st

/-- `resetGame` (also the initial mount effect): fresh car at
`(CANVAS_WIDTH / 2, CANVAS_HEIGHT - 100)`, score and speed zero, latch
cleared, freshly generated road and coins, camera at zero. -/
def resetState (rdir : ℕ → ℚ) (rcoin : ℕ → ℚ × ℚ) : GameState :=
  let path := initializeRoad rdir
  { car := ⟨CANVAS_WIDTH / 2, CANVAS_HEIGHT - 100, INIT_ANGLE, 0⟩
    coins := initializeCoins rcoin path
    roadPath := path
    cameraOffsetY := 0
    score := 0
    speed := 0
    gameOver := false
    actionTriggered := false
    callbackCount := 0 }

/-- Iterated road extension: `extendN rnds k` applies `extendRoad` `k`
times, the `j`-th call drawing from the oracle `rnds j`. -/
def extendN (rnds : ℕ → ℕ → ℚ × ℚ × ℚ) : ℕ → List Point × List Coin → List Point × List Coin
  | 0, pc => pc
  | k + 1, pc => extendN rnds k (extendRoad (rnds k) pc.1 pc.2)

/-- Clamp a parameter to the unit interval. -/
def clamp01 (t : ℚ) : ℚ := max 0 (min 1 t)

/-- The spec's description of the per-segment distance (squared): project
the vehicle onto the infinite line through the segment, clamp the
parametric position to `[0, 1]`, and measure the (squared) distance to
the clamped point; a degenerate zero-length segment contributes the
distance to the shared point. -/
def specSegDistSq (cx cy : ℚ) (p1 p2 : Point) : ℚ :=
  if p1 = p2 then distSq cx cy p1.x p1.y
  else
    let t := clamp01 (((cx - p1.x) * (p2.x - p1.x) + (cy - p1.y) * (p2.y - p1.y)) /
      ((p2.x - p1.x) * (p2.x - p1.x) + (p2.y - p1.y) * (p2.y - p1.y)))
    distSq cx cy (p1.x + t * (p2.x - p1.x)) (p1.y + t * (p2.y - p1.y))

/-- The spec's minimum-over-segments distance (squared), `none` when the
path has fewer than 2 points. -/
def specMinDistSq (car : Car) (path : List Point) : Option ℚ :=
  match (path.zip path.tail).map (fun pq => specSegDistSq car.x car.y pq.1 pq.2) with
  | [] => none
  | d :: ds => some (ds.foldl min d)

/-- The midpoints of all consecutive road-point pairs (used to state the
spec's item-placement claim). -/
def segmentMidpoints (path : List Point) : List Point :=
  (path.zip path.tail).map fun pq => ⟨(pq.1.x + pq.2.x) / 2, (pq.1.y + pq.2.y) / 2⟩

/-- The spec's placement property: every coin sits at some segment
midpoint, laterally jittered by at most 20. -/
def coinsAtMidpoints (path : List Point) (coins : List Coin) : Prop :=
  ∀ c ∈ coins, ∃ mp ∈ segmentMidpoints path, c.y = mp.y ∧ |c.x - mp.x| ≤ 20

/-- Number of collected coins in a list. -/
def collectedCount (coins : List Coin) : ℕ :=
  coins.countP (·.collected)

/-- Number of not-yet-collected coins in a list. -/
def uncollectedCount (coins : List Coin) : ℕ :=
  coins.countP (fun c => !c.collected)

/-- The latch/count invariant on the coin-pass accumulator. -/
def accInv (a : CoinAcc) : Prop :=
  a.actionTriggered = decide (ACTION_SCORE_THRESHOLD ≤ a.score) ∧
  a.callbackCount = (if a.actionTriggered then 1 else 0)

/-- The latch/count invariant on the full game state. -/
def latchInv (st : GameState) : Prop :=
  st.actionTriggered = decide (ACTION_SCORE_THRESHOLD ≤ st.score) ∧
  st.callbackCount = (if st.actionTriggered then 1 else 0)

/-- The score bookkeeping invariant: score is ten times the number of
collected coins. -/
def scoreInv (st : GameState) : Prop :=
  st.score = 10 * collectedCount st.coins

/-- The reachable-state invariant behind the no-starvation property: the
road is nonempty, the car sits at or below the screen midline, and the
generated horizon is at least `ROAD_EXTEND_THRESHOLD - MOVE_SPEED`
above the screen top. -/
def horizonInv (st : GameState) : Prop :=
  st.roadPath ≠ [] ∧ CANVAS_HEIGHT / 2 ≤ st.car.y ∧
  topOfRoad st ≤ -ROAD_EXTEND_THRESHOLD + MOVE_SPEED

def cexCar : Car := ⟨220, 570, 0, 0⟩

def cexPath : List Point := [⟨400, 600⟩, ⟨400, 540⟩]

def c6rnd : ℕ → ℚ × ℚ × ℚ := fun _ => (0, 1/2, 1/2)

def c6path : List Point := [⟨400, 600⟩]

/-- Trivial direction-draw oracle used by witnesses. -/
def wRdir : ℕ → ℚ := fun _ => 0

/-- Trivial initialization coin-draw oracle used by witnesses. -/
def wRcoin : ℕ → ℚ × ℚ := fun _ => (0, 1/2)

/-- Trivial extension-draw oracle used by witnesses. -/
def wRnd0 : ℕ → ℚ × ℚ × ℚ := fun _ => (0, 0, 0)

/-- Trivial iterated-extension oracle used by witnesses. -/
def wRnds : ℕ → ℕ → ℚ × ℚ × ℚ := fun _ _ => (0, 0, 0)

/-- A quiescent tick input used by witnesses. -/
def wInp : TickInput := ⟨false, false, false, false, 0, 0, fun _ => (0, 0, 0)⟩

/-- A small Running state used by witnesses. -/
def wSt : GameState :=
  { car := ⟨400, 500, 0, 0⟩
    coins := []
    roadPath := [⟨400, 600⟩, ⟨400, 540⟩]
    cameraOffsetY := 0
    score := 0
    speed := 0
    gameOver := false
    actionTriggered := false
    callbackCount := 0 }

/-- A state whose generated horizon sits inside the extend-trigger
window, used by the no-starvation witness. -/
def wSt7 : GameState :=
  { car := ⟨400, 500, 0, 0⟩
    coins := []
    roadPath := [⟨400, 0⟩]
    cameraOffsetY := -197
    score := 0
    speed := 0
    gameOver := false
    actionTriggered := false
    callbackCount := 0 }

/-- A zeroed coin-pass accumulator used by witnesses. -/
def wAcc : CoinAcc := ⟨0, false, 0, false⟩

lemma segDistSq_degenerate (cx cy : ℚ) (p : Point) :
    segDistSq cx cy p p = distSq cx cy p.x p.y := by
  simp [segDistSq]

lemma segDistSq_eq_spec (cx cy : ℚ) (p1 p2 : Point) :
    segDistSq cx cy p1 p2 = specSegDistSq cx cy p1 p2 := by
  by_cases hpq : p1 = p2
  · subst hpq
    simp [segDistSq, specSegDistSq]
  · have hx : ¬(p2.x - p1.x = 0 ∧ p2.y - p1.y = 0) := by
      rintro ⟨h1, h2⟩
      apply hpq
      have e1 : p1.x = p2.x := by linarith
      have e2 : p1.y = p2.y := by linarith
      cases p1; cases p2; simp_all
    have hlen : (p2.x - p1.x) * (p2.x - p1.x) + (p2.y - p1.y) * (p2.y - p1.y) ≠ 0 := by
      rcases not_and_or.mp hx with h | h
      · have : 0 < (p2.x - p1.x) * (p2.x - p1.x) := mul_self_pos.mpr h
        nlinarith [mul_self_nonneg (p2.y - p1.y)]
      · have : 0 < (p2.y - p1.y) * (p2.y - p1.y) := mul_self_pos.mpr h
        nlinarith [mul_self_nonneg (p2.x - p1.x)]
    simp only [segDistSq, specSegDistSq, if_neg hpq]
    rw [if_pos hlen]
    set t := ((cx - p1.x) * (p2.x - p1.x) + (cy - p1.y) * (p2.y - p1.y)) /
      ((p2.x - p1.x) * (p2.x - p1.x) + (p2.y - p1.y) * (p2.y - p1.y)) with ht
    split_ifs with h1 h2
    · have hc : clamp01 t = 0 := by
        unfold clamp01
        rw [min_eq_right (le_of_lt (h1.trans_le zero_le_one)), max_eq_left (le_of_lt h1)]
      rw [hc]
      unfold distSq
      ring
    · have hc : clamp01 t = 1 := by
        unfold clamp01
        rw [min_eq_left (le_of_lt h2), max_eq_right zero_le_one]
      rw [hc]
      unfold distSq
      ring
    · have hc : clamp01 t = t := by
        unfold clamp01
        rw [min_eq_right (not_lt.mp h2), max_eq_right (not_lt.mp h1)]
      rw [hc]

lemma specMinDistSq_eq_minSegDistSq (car : Car) (path : List Point) :
    specMinDistSq car path = minSegDistSq car path := by
  have hmap : (path.zip path.tail).map (fun pq => specSegDistSq car.x car.y pq.1 pq.2) =
      segDists car path := by
    unfold segDists
    exact List.map_congr_left fun pq _ => (segDistSq_eq_spec car.x car.y pq.1 pq.2).symm
  unfold specMinDistSq minSegDistSq
  rw [hmap]

lemma segDists_ne_nil (car : Car) (path : List Point) (h : 2 ≤ path.length) :
    segDists car path ≠ [] := by
  match path, h with
  | p :: q :: rest, _ =>
    simp [segDists, List.zip_cons_cons]

/-- Claim C2 (amended): for every vehicle position and every path with
at least 2 points, the off-path test computes, for each consecutive
path-point pair, the (squared) distance from the vehicle to the segment
by the clamped-projection formula, takes the minimum over all segments,
and the vehicle is off-path exactly when this minimum REACHES OR EXCEEDS
the squared on-road threshold `(roadWidth/2 - 20)^2` (the source tests
`minDistance < 180` for being on-road, so the boundary case
`minDistance = 180` already counts as off-path, not only strictly
exceeding distances as the original claim says). -/
theorem offPath_iff_minDist (car : Car) (path : List Point) (h : 2 ≤ path.length) :
    ∃ m, specMinDistSq car path = some m ∧
      (isCarOnRoad car path = false ↔ onRoadThreshSq ≤ m) := by
  rw [specMinDistSq_eq_minSegDistSq]
  have hne := segDists_ne_nil car path h
  unfold isCarOnRoad minSegDistSq
  match hsd : segDists car path with
  | [] => exact absurd hsd hne
  | d :: ds =>
    refine ⟨ds.foldl min d, rfl, ?_⟩
    simp [not_lt]

theorem offPath_cex :
    isCarOnRoad cexCar cexPath = false ∧
    specMinDistSq cexCar cexPath = some 32400 ∧
    ¬ (onRoadThreshSq < 32400) := by
  refine ⟨?_, ?_, ?_⟩
  · norm_num [isCarOnRoad, minSegDistSq, segDists, segDistSq, distSq, cexCar, cexPath,
      onRoadThreshSq, ROAD_WIDTH, List.zip_cons_cons]
  · norm_num [specMinDistSq, specSegDistSq, distSq, clamp01, cexCar, cexPath,
      List.zip_cons_cons]
  · norm_num [onRoadThreshSq, ROAD_WIDTH]

/-- Claim C8: for every degenerate zero-length segment (two coincident
consecutive path points), the segment-distance computation performs no
division (the `lenSq ≠ 0` guard routes the computation through the
constant `param = -1`, selecting the `param < 0` branch) and returns the
(squared) distance from the vehicle to the shared point. -/
theorem segDist_zero_length (cx cy : ℚ) (p1 p2 : Point) (h : p1 = p2) :
    segDistSq cx cy p1 p2 = distSq cx cy p1.x p1.y := by
  subst h
  exact segDistSq_degenerate cx cy p1

/-- Claim C10: an uncollected coin whose screen y (`coin.y +
cameraOffsetY`) lies outside `[-50, CANVAS_HEIGHT + 50]` is skipped by
the coin pass before any collision test: the step leaves both the
accumulator (score, latch, callback count, game-over flag) and the coin
unchanged, regardless of the coin's distance to the vehicle. -/
theorem coin_offscreen_skip (car : Car) (cam : ℚ) (acc : CoinAcc) (coin : Coin)
    (h : coin.collected = false)
    (hvis : coin.y + cam < -50 ∨ coin.y + cam > CANVAS_HEIGHT + 50) :
    coinStep car cam acc coin = (acc, coin) := by
  unfold coinStep
  rw [if_neg (by simp [h]), if_pos hvis]

lemma initLoop_length (rdir : ℕ → ℚ) :
    ∀ (fuel i : ℕ) (prev : Point), (initLoop rdir i prev fuel).length = fuel := by
  intro fuel
  induction fuel with
  | zero => intro i prev; rfl
  | succ n ih => intro i prev; simp [initLoop, ih]

lemma extendLoop_length (rnd : ℕ → ℚ × ℚ × ℚ) (cnt : ℕ) :
    ∀ (fuel i : ℕ) (prev : Point), (extendLoop rnd cnt i prev fuel).1.length = fuel := by
  intro fuel
  induction fuel with
  | zero => intro i prev; rfl
  | succ n ih => intro i prev; simp [extendLoop, ih]

lemma extendRoad_length (rnd : ℕ → ℚ × ℚ × ℚ) (path : List Point) (coins : List Coin)
    (h : path ≠ []) :
    (extendRoad rnd path coins).1.length = path.length + 5 := by
  unfold extendRoad
  match hl : path.getLast? with
  | none =>
    rw [List.getLast?_eq_none_iff] at hl
    exact absurd hl h
  | some lastPoint => simp [extendLoop_length]

/-- Claim C9: `extendRoad` reads the last path element unguarded, so it
requires a non-empty path; initialization always produces 16 points, the
unguarded access succeeds on every non-empty path (`getLast?` is `some`),
and `extendRoad` preserves non-emptiness (indeed adds exactly 5 points),
so the out-of-bounds access is unreachable after initialization and the
embedded extend function is total there. -/
theorem extend_access_safe (rdir : ℕ → ℚ) (rnd : ℕ → ℚ × ℚ × ℚ)
    (path : List Point) (coins : List Coin) (h : path ≠ []) :
    (initializeRoad rdir).length = 16 ∧
    (path.getLast?).isSome = true ∧
    (extendRoad rnd path coins).1 ≠ [] ∧
    (extendRoad rnd path coins).1.length = path.length + 5 := by
  refine ⟨?_, ?_, ?_, ?_⟩
  · simp [initializeRoad, initLoop_length]
  · simpa [List.getLast?_isSome] using h
  · unfold extendRoad
    match hl : path.getLast? with
    | none =>
      rw [List.getLast?_eq_none_iff] at hl
      exact absurd hl h
    | some lastPoint => simp [h]
  · exact extendRoad_length rnd path coins h

lemma clampRoadX_bounds (x : ℚ) :
    ROAD_WIDTH / 2 ≤ clampRoadX x ∧ clampRoadX x ≤ CANVAS_WIDTH - ROAD_WIDTH / 2 := by
  unfold clampRoadX
  refine ⟨le_max_left _ _, max_le (by norm_num [ROAD_WIDTH, CANVAS_WIDTH]) (min_le_left _ _)⟩

lemma roadStep_x_bounds (cnt i : ℕ) (r : ℚ) (prev : Point) :
    ROAD_WIDTH / 2 ≤ (roadStep cnt i r prev).x ∧
    (roadStep cnt i r prev).x ≤ CANVAS_WIDTH - ROAD_WIDTH / 2 :=
  clampRoadX_bounds _

lemma initLoop_x_bounds (rdir : ℕ → ℚ) :
    ∀ (fuel i : ℕ) (prev : Point), ∀ p ∈ initLoop rdir i prev fuel,
      ROAD_WIDTH / 2 ≤ p.x ∧ p.x ≤ CANVAS_WIDTH - ROAD_WIDTH / 2 := by
  intro fuel
  induction fuel with
  | zero => intro i prev p hp; simp [initLoop] at hp
  | succ n ih =>
    intro i prev p hp
    simp only [initLoop, List.mem_cons] at hp
    rcases hp with rfl | hp
    · exact roadStep_x_bounds _ _ _ _
    · exact ih _ _ p hp

lemma extendLoop_x_bounds (rnd : ℕ → ℚ × ℚ × ℚ) (cnt : ℕ) :
    ∀ (fuel i : ℕ) (prev : Point), ∀ p ∈ (extendLoop rnd cnt i prev fuel).1,
      ROAD_WIDTH / 2 ≤ p.x ∧ p.x ≤ CANVAS_WIDTH - ROAD_WIDTH / 2 := by
  intro fuel
  induction fuel with
  | zero => intro i prev p hp; simp [extendLoop] at hp
  | succ n ih =>
    intro i prev p hp
    simp only [extendLoop, List.mem_cons] at hp
    rcases hp with rfl | hp
    · exact roadStep_x_bounds _ _ _ _
    · exact ih _ _ p hp

lemma initializeRoad_x_bounds (rdir : ℕ → ℚ) :
    ∀ p ∈ initializeRoad rdir,
      ROAD_WIDTH / 2 ≤ p.x ∧ p.x ≤ CANVAS_WIDTH - ROAD_WIDTH / 2 := by
  intro p hp
  simp only [initializeRoad, List.mem_cons] at hp
  rcases hp with rfl | hp
  · norm_num [ROAD_WIDTH, CANVAS_WIDTH]
  · exact initLoop_x_bounds rdir _ _ _ p hp

lemma extendRoad_x_bounds (rnd : ℕ → ℚ × ℚ × ℚ) (path : List Point) (coins : List Coin)
    (hpath : ∀ p ∈ path, ROAD_WIDTH / 2 ≤ p.x ∧ p.x ≤ CANVAS_WIDTH - ROAD_WIDTH / 2) :
    ∀ p ∈ (extendRoad rnd path coins).1,
      ROAD_WIDTH / 2 ≤ p.x ∧ p.x ≤ CANVAS_WIDTH - ROAD_WIDTH / 2 := by
  unfold extendRoad
  match hl : path.getLast? with
  | none => exact hpath
  | some lastPoint =>
    intro p hp
    simp only [List.mem_append] at hp
    rcases hp with hp | hp
    · exact hpath p hp
    · exact extendLoop_x_bounds rnd _ _ _ _ p hp

lemma extendN_x_bounds (rnds : ℕ → ℕ → ℚ × ℚ × ℚ) :
    ∀ (k : ℕ) (pc : List Point × List Coin),
      (∀ p ∈ pc.1, ROAD_WIDTH / 2 ≤ p.x ∧ p.x ≤ CANVAS_WIDTH - ROAD_WIDTH / 2) →
      ∀ p ∈ (extendN rnds k pc).1,
        ROAD_WIDTH / 2 ≤ p.x ∧ p.x ≤ CANVAS_WIDTH - ROAD_WIDTH / 2 := by
  intro k
  induction k with
  | zero => intro pc h; exact h
  | succ n ih =>
    intro pc h
    exact ih _ (extendRoad_x_bounds _ _ _ h)

/-- Claim C5: for every path produced by initialization followed by any
number of extensions, every path point's x coordinate lies within
`[ROAD_WIDTH/2, CANVAS_WIDTH - ROAD_WIDTH/2]` = `[200, 600]`. -/
theorem path_x_within_bounds (rdir : ℕ → ℚ) (rcoin : ℕ → ℚ × ℚ)
    (rnds : ℕ → ℕ → ℚ × ℚ × ℚ) (k : ℕ) (p : Point)
    (hp : p ∈ (extendN rnds k (initializeRoad rdir, initializeCoins rcoin (initializeRoad rdir))).1) :
    ROAD_WIDTH / 2 ≤ p.x ∧ p.x ≤ CANVAS_WIDTH - ROAD_WIDTH / 2 :=
  extendN_x_bounds rnds k _ (fun q hq => initializeRoad_x_bounds rdir q hq) p hp

lemma movePhase_score (st : GameState) (inp : TickInput) :
    (movePhase st inp).score = st.score := by
  unfold movePhase; split <;> split <;> split <;> rfl

lemma movePhase_gameOver (st : GameState) (inp : TickInput) :
    (movePhase st inp).gameOver = st.gameOver := by
  unfold movePhase; split <;> split <;> split <;> rfl

lemma movePhase_actionTriggered (st : GameState) (inp : TickInput) :
    (movePhase st inp).actionTriggered = st.actionTriggered := by
  unfold movePhase; split <;> split <;> split <;> rfl

lemma movePhase_callbackCount (st : GameState) (inp : TickInput) :
    (movePhase st inp).callbackCount = st.callbackCount := by
  unfold movePhase; split <;> split <;> split <;> rfl

lemma checkPhase_score (st : GameState) (inp : TickInput) :
    (checkPhase st inp).score = st.score := rfl

lemma checkPhase_actionTriggered (st : GameState) (inp : TickInput) :
    (checkPhase st inp).actionTriggered = st.actionTriggered := rfl

lemma checkPhase_callbackCount (st : GameState) (inp : TickInput) :
    (checkPhase st inp).callbackCount = st.callbackCount := rfl

lemma checkPhase_coins (st : GameState) (inp : TickInput) :
    (checkPhase st inp).coins = st.coins := rfl

lemma coinPhase_roadPath (st : GameState) : (coinPhase st).roadPath = st.roadPath := rfl

lemma coinPhase_car (st : GameState) : (coinPhase st).car = st.car := rfl

lemma coinPhase_cameraOffsetY (st : GameState) :
    (coinPhase st).cameraOffsetY = st.cameraOffsetY := rfl

lemma checkPhase_roadPath (st : GameState) (inp : TickInput) :
    (checkPhase st inp).roadPath = st.roadPath := rfl

lemma checkPhase_car (st : GameState) (inp : TickInput) :
    (checkPhase st inp).car = st.car := rfl

lemma checkPhase_cameraOffsetY (st : GameState) (inp : TickInput) :
    (checkPhase st inp).cameraOffsetY = st.cameraOffsetY := rfl

/-- Case characterization of `coinStep`: either the step is a no-op, or
it is a pickup of a previously uncollected coin. -/
lemma coinStep_cases (car : Car) (cam : ℚ) (acc : CoinAcc) (coin : Coin) :
    coinStep car cam acc coin = (acc, coin) ∨
    (coin.collected = false ∧
      coinStep car cam acc coin =
        ({ score := acc.score + 10
           actionTriggered :=
             if decide (ACTION_SCORE_THRESHOLD ≤ acc.score + 10) && !acc.actionTriggered
             then true else acc.actionTriggered
           callbackCount :=
             if decide (ACTION_SCORE_THRESHOLD ≤ acc.score + 10) && !acc.actionTriggered
             then acc.callbackCount + 1 else acc.callbackCount
           gameOver := acc.gameOver || decide (MAX_SCORE ≤ acc.score + 10) },
         { coin with collected := true })) := by
  rcases hcol : coin.collected with _ | _
  · by_cases h2 : coin.y + cam < -50 ∨ coin.y + cam > CANVAS_HEIGHT + 50
    · left; simp [coinStep, hcol, h2]
    · by_cases h3 : checkCollision car coin.x (coin.y + cam)
      · right
        refine ⟨rfl, ?_⟩
        simp [coinStep, hcol, h2, h3]
      · left; simp [coinStep, hcol, h2, h3]
  · left; simp [coinStep, hcol]

lemma coinStep_accInv (car : Car) (cam : ℚ) (acc : CoinAcc) (coin : Coin)
    (h : accInv acc) : accInv (coinStep car cam acc coin).1 := by
  rcases coinStep_cases car cam acc coin with hc | ⟨_, hc⟩
  · rw [hc]; exact h
  · rw [hc]
    obtain ⟨h1, h2⟩ := h
    unfold accInv
    rcases ht : acc.actionTriggered with _ | _
    · rw [ht] at h1 h2
      by_cases hnew : ACTION_SCORE_THRESHOLD ≤ acc.score + 10
      · rw [decide_eq_true hnew] at hc ⊢
        simp only [ht] at hc ⊢
        simp_all
      · rw [decide_eq_false hnew] at hc ⊢
        simp only [ht] at hc ⊢
        simp_all
    · rw [ht] at h1 h2
      have hle : ACTION_SCORE_THRESHOLD ≤ acc.score := of_decide_eq_true h1.symm
      have hle10 : ACTION_SCORE_THRESHOLD ≤ acc.score + 10 := by omega
      rw [decide_eq_true hle10] at hc ⊢
      simp only [ht] at hc ⊢
      simp_all

lemma coinPass_accInv (car : Car) (cam : ℚ) :
    ∀ (l : List Coin) (acc : CoinAcc), accInv acc → accInv (coinPass car cam acc l).1 := by
  intro l
  induction l with
  | nil => intro acc h; exact h
  | cons coin rest ih =>
    intro acc h
    exact ih _ (coinStep_accInv car cam acc coin h)

lemma tick_latchInv (st : GameState) (inp : TickInput) (h : latchInv st) :
    latchInv (tick st inp) := by
  unfold tick
  split
  · exact h
  · have hm := movePhase_score st inp
    have hm2 := movePhase_actionTriggered st inp
    have hm3 := movePhase_callbackCount st inp
    have hacc : accInv ⟨(checkPhase (movePhase st inp) inp).score,
        (checkPhase (movePhase st inp) inp).actionTriggered,
        (checkPhase (movePhase st inp) inp).callbackCount,
        (checkPhase (movePhase st inp) inp).gameOver⟩ := by
      unfold accInv
      simp only [checkPhase_score, checkPhase_actionTriggered, checkPhase_callbackCount,
        hm, hm2, hm3]
      exact h
    have := coinPass_accInv (checkPhase (movePhase st inp) inp).car
      (checkPhase (movePhase st inp) inp).cameraOffsetY
      (checkPhase (movePhase st inp) inp).coins _ hacc
    unfold latchInv coinPhase
    exact this

lemma run_latchInv (inputs : List TickInput) :
    ∀ (st : GameState), latchInv st → latchInv (run st inputs) := by
  induction inputs with
  | nil => intro st h; exact h
  | cons inp rest ih =>
    intro st h
    exact ih _ (tick_latchInv st inp h)

lemma resetState_latchInv (rdir : ℕ → ℚ) (rcoin : ℕ → ℚ × ℚ) :
    latchInv (resetState rdir rcoin) := by
  unfold latchInv resetState
  norm_num [ACTION_SCORE_THRESHOLD]

/-- Claim C1: from a reset state (latch clear, no callbacks dispatched),
after any run of ticks the number of dispatched milestone callbacks is
exactly 1 if the score has reached `ACTION_SCORE_THRESHOLD` (300) and 0
otherwise.  Since this equation holds after every prefix of every run,
the callback is dispatched exactly on the first tick whose pickups bring
the score to or across 300 — even when several same-tick pickups jump
the score over the threshold — and never again until an explicit reset
clears the latch. -/
theorem milestone_fires_once (rdir : ℕ → ℚ) (rcoin : ℕ → ℚ × ℚ)
    (inputs : List TickInput) :
    (resetState rdir rcoin).actionTriggered = false ∧
    (resetState rdir rcoin).callbackCount = 0 ∧
    (run (resetState rdir rcoin) inputs).callbackCount =
      (if ACTION_SCORE_THRESHOLD ≤ (run (resetState rdir rcoin) inputs).score
       then 1 else 0) := by
  refine ⟨rfl, rfl, ?_⟩
  obtain ⟨h1, h2⟩ := run_latchInv inputs _ (resetState_latchInv rdir rcoin)
  rw [h2, h1]
  by_cases hs : ACTION_SCORE_THRESHOLD ≤ (run (resetState rdir rcoin) inputs).score
  · rw [decide_eq_true hs]
    simp [hs]
  · rw [decide_eq_false hs]
    simp [hs]

lemma initializeCoins_uncollected (rnd : ℕ → ℚ × ℚ) (path : List Point) :
    ∀ c ∈ initializeCoins rnd path, c.collected = false := by
  intro c hc
  obtain ⟨i, _, hi⟩ := List.mem_filterMap.mp hc
  by_cases hr : (rnd i).1 > 2/5
  · rw [if_pos hr] at hi
    cases hi
    rfl
  · rw [if_neg hr] at hi
    cases hi

lemma extendLoop_coins_uncollected (rnd : ℕ → ℚ × ℚ × ℚ) (cnt : ℕ) :
    ∀ (fuel i : ℕ) (prev : Point), ∀ c ∈ (extendLoop rnd cnt i prev fuel).2,
      c.collected = false := by
  intro fuel
  induction fuel with
  | zero => intro i prev c hc; simp [extendLoop] at hc
  | succ n ih =>
    intro i prev c hc
    simp only [extendLoop, List.mem_append] at hc
    rcases hc with hc | hc
    · by_cases hr : (rnd i).2.1 > 2/5
      · rw [if_pos hr] at hc
        simp only [List.mem_singleton] at hc
        subst hc
        rfl
      · rw [if_neg hr] at hc
        simp at hc
    · exact ih _ _ c hc

lemma extendRoad_collectedCount (rnd : ℕ → ℚ × ℚ × ℚ) (path : List Point)
    (coins : List Coin) :
    collectedCount (extendRoad rnd path coins).2 = collectedCount coins := by
  unfold extendRoad
  match hl : path.getLast? with
  | none => rfl
  | some lastPoint =>
    unfold collectedCount
    rw [List.countP_append]
    have : (extendLoop rnd path.length 0 lastPoint 5).2.countP (·.collected) = 0 := by
      rw [List.countP_eq_zero]
      intro c hc
      simp [extendLoop_coins_uncollected rnd path.length 5 0 lastPoint c hc]
    omega

lemma movePhase_coins_eq (st : GameState) (inp : TickInput) :
    (movePhase st inp).coins = st.coins ∨
    (movePhase st inp).coins = (extendRoad inp.rnd st.roadPath st.coins).2 := by
  unfold movePhase
  split_ifs <;> simp

lemma movePhase_collectedCount (st : GameState) (inp : TickInput) :
    collectedCount (movePhase st inp).coins = collectedCount st.coins := by
  rcases movePhase_coins_eq st inp with h | h
  · rw [h]
  · rw [h, extendRoad_collectedCount]

lemma coinStep_score (car : Car) (cam : ℚ) (acc : CoinAcc) (coin : Coin) :
    (coinStep car cam acc coin).1.score + (if coin.collected then 10 else 0) =
    acc.score + (if (coinStep car cam acc coin).2.collected then 10 else 0) := by
  rcases coinStep_cases car cam acc coin with hc | ⟨hcol, hc⟩
  · rw [hc]
  · rw [hc, hcol]
    simp

lemma coinPass_score (car : Car) (cam : ℚ) :
    ∀ (l : List Coin) (acc : CoinAcc),
      (coinPass car cam acc l).1.score + 10 * collectedCount l =
      acc.score + 10 * collectedCount (coinPass car cam acc l).2 := by
  intro l
  induction l with
  | nil => intro acc; rfl
  | cons coin rest ih =>
    intro acc
    have hstep := coinStep_score car cam acc coin
    have hrest := ih (coinStep car cam acc coin).1
    unfold coinPass
    unfold collectedCount at hrest ⊢
    simp only [List.countP_cons]
    rcases h1 : coin.collected with _ | _ <;>
      rcases h2 : (coinStep car cam acc coin).2.collected with _ | _
    all_goals simp [h1, h2] at hstep ⊢
    all_goals omega

lemma coinStep_score_mono (car : Car) (cam : ℚ) (acc : CoinAcc) (coin : Coin) :
    acc.score ≤ (coinStep car cam acc coin).1.score := by
  rcases coinStep_cases car cam acc coin with hc | ⟨_, hc⟩ <;> rw [hc] <;> simp

lemma coinPass_score_mono (car : Car) (cam : ℚ) :
    ∀ (l : List Coin) (acc : CoinAcc), acc.score ≤ (coinPass car cam acc l).1.score := by
  intro l
  induction l with
  | nil => intro acc; exact le_refl _
  | cons coin rest ih =>
    intro acc
    exact le_trans (coinStep_score_mono car cam acc coin) (ih _)

lemma tick_scoreInv (st : GameState) (inp : TickInput) (h : scoreInv st) :
    scoreInv (tick st inp) := by
  unfold tick
  split
  · exact h
  · unfold scoreInv coinPhase
    have hpass := coinPass_score (checkPhase (movePhase st inp) inp).car
      (checkPhase (movePhase st inp) inp).cameraOffsetY
      (checkPhase (movePhase st inp) inp).coins
      ⟨(checkPhase (movePhase st inp) inp).score,
       (checkPhase (movePhase st inp) inp).actionTriggered,
       (checkPhase (movePhase st inp) inp).callbackCount,
       (checkPhase (movePhase st inp) inp).gameOver⟩
    have hcnt : collectedCount (movePhase st inp).coins = collectedCount st.coins :=
      movePhase_collectedCount st inp
    unfold scoreInv at h
    simp only [checkPhase_score, checkPhase_coins, checkPhase_car, checkPhase_cameraOffsetY,
      checkPhase_actionTriggered, checkPhase_callbackCount, movePhase_score] at hpass ⊢
    omega

lemma run_scoreInv (inputs : List TickInput) :
    ∀ (st : GameState), scoreInv st → scoreInv (run st inputs) := by
  induction inputs with
  | nil => intro st h; exact h
  | cons inp rest ih =>
    intro st h
    exact ih _ (tick_scoreInv st inp h)

lemma resetState_scoreInv (rdir : ℕ → ℚ) (rcoin : ℕ → ℚ × ℚ) :
    scoreInv (resetState rdir rcoin) := by
  unfold scoreInv resetState collectedCount
  have : (initializeCoins rcoin (initializeRoad rdir)).countP (·.collected) = 0 := by
    rw [List.countP_eq_zero]
    intro c hc
    simp [initializeCoins_uncollected rcoin (initializeRoad rdir) c hc]
  simp [this]

lemma tick_score_mono (st : GameState) (inp : TickInput) :
    st.score ≤ (tick st inp).score := by
  unfold tick
  split
  · exact le_refl _
  · unfold coinPhase
    have := coinPass_score_mono (checkPhase (movePhase st inp) inp).car
      (checkPhase (movePhase st inp) inp).cameraOffsetY
      (checkPhase (movePhase st inp) inp).coins
      ⟨(checkPhase (movePhase st inp) inp).score,
       (checkPhase (movePhase st inp) inp).actionTriggered,
       (checkPhase (movePhase st inp) inp).callbackCount,
       (checkPhase (movePhase st inp) inp).gameOver⟩
    simp only [checkPhase_score, checkPhase_coins, checkPhase_car, checkPhase_cameraOffsetY,
      checkPhase_actionTriggered, checkPhase_callbackCount, movePhase_score] at this ⊢
    exact this

/-- Claim C4: in every run from a reset state the score equals 10 times
the number of distinct collected coins (hence it is always a multiple of
the per-item value), the score is monotonically non-decreasing from one
tick to the next, and a collision step on an already-collected coin is
the identity on both the accumulator and the coin. -/
theorem score_counts_collected (rdir : ℕ → ℚ) (rcoin : ℕ → ℚ × ℚ)
    (inputs : List TickInput) (inp : TickInput)
    (car : Car) (cam : ℚ) (acc : CoinAcc) (coin : Coin) (h : coin.collected = true) :
    (run (resetState rdir rcoin) inputs).score =
      10 * collectedCount (run (resetState rdir rcoin) inputs).coins ∧
    (run (resetState rdir rcoin) inputs).score ≤
      (run (resetState rdir rcoin) (inputs ++ [inp])).score ∧
    coinStep car cam acc coin = (acc, coin) := by
  refine ⟨run_scoreInv inputs _ (resetState_scoreInv rdir rcoin), ?_, ?_⟩
  · unfold run
    rw [List.foldl_append]
    exact tick_score_mono _ inp
  · unfold coinStep
    rw [if_pos h]

lemma extendLoop_coins_length (rnd : ℕ → ℚ × ℚ × ℚ) (cnt : ℕ) :
    ∀ (fuel i : ℕ) (prev : Point), (extendLoop rnd cnt i prev fuel).2.length ≤ fuel := by
  intro fuel
  induction fuel with
  | zero => intro i prev; simp [extendLoop]
  | succ n ih =>
    intro i prev
    simp only [extendLoop, List.length_append]
    have h1 : (if (rnd i).2.1 > 2/5 then
        [⟨(roadStep cnt i (rnd i).1 prev).x + ((rnd i).2.2 - 1/2) * 40,
          (roadStep cnt i (rnd i).1 prev).y, false⟩] else ([] : List Coin)).length ≤ 1 := by
      split <;> simp
    have h2 := ih (i + 1) (roadStep cnt i (rnd i).1 prev)
    omega

lemma extendRoad_coins_decomp (rnd : ℕ → ℚ × ℚ × ℚ) (path : List Point)
    (coins : List Coin) :
    ∃ newCoins : List Coin, (extendRoad rnd path coins).2 = coins ++ newCoins ∧
      newCoins.length ≤ 5 := by
  unfold extendRoad
  match hl : path.getLast? with
  | none => exact ⟨[], by simp, by simp⟩
  | some lastPoint =>
    exact ⟨(extendLoop rnd path.length 0 lastPoint 5).2, rfl,
      extendLoop_coins_length rnd path.length 5 0 lastPoint⟩

lemma movePhase_uncollected_le (st : GameState) (inp : TickInput) :
    uncollectedCount (movePhase st inp).coins ≤ uncollectedCount st.coins + 5 := by
  rcases movePhase_coins_eq st inp with h | h
  · rw [h]; omega
  · rw [h]
    obtain ⟨newCoins, hdec, hlen⟩ := extendRoad_coins_decomp inp.rnd st.roadPath st.coins
    rw [hdec]
    unfold uncollectedCount
    rw [List.countP_append]
    have := List.countP_le_length (l := newCoins) (p := fun c => !c.collected)
    omega

lemma coinPass_gameOver (car : Car) (cam : ℚ) :
    ∀ (l : List Coin) (acc : CoinAcc),
      acc.score + 10 * uncollectedCount l < MAX_SCORE →
      (coinPass car cam acc l).1.gameOver = acc.gameOver := by
  intro l
  induction l with
  | nil => intro acc _; rfl
  | cons coin rest ih =>
    intro acc hb
    unfold coinPass
    unfold uncollectedCount at hb
    rw [List.countP_cons] at hb
    rcases coinStep_cases car cam acc coin with hc | ⟨hcol, hc⟩
    · rw [hc]
      show (coinPass car cam acc rest).1.gameOver = acc.gameOver
      apply ih
      unfold uncollectedCount
      omega
    · rw [hc]
      simp only [hcol] at hb
      norm_num at hb
      have hlt : ¬ (MAX_SCORE ≤ acc.score + 10) := by omega
      have hgen : ∀ acc' : CoinAcc, acc'.score = acc.score + 10 →
          acc'.gameOver = acc.gameOver →
          (coinPass car cam acc' rest).1.gameOver = acc.gameOver := by
        intro acc' hs hg
        rw [ih acc' (by rw [hs]; unfold uncollectedCount; omega), hg]
      apply hgen
      · rfl
      · show (acc.gameOver || decide (MAX_SCORE ≤ acc.score + 10)) = acc.gameOver
        rw [decide_eq_false hlt, Bool.or_false]

lemma coinPhase_gameOver (st : GameState)
    (hb : st.score + 10 * uncollectedCount st.coins < MAX_SCORE) :
    (coinPhase st).gameOver = st.gameOver := by
  unfold coinPhase
  exact coinPass_gameOver st.car st.cameraOffsetY st.coins _ hb

/-- Claim C3: on any Running, unpaused tick that cannot reach the
max-score transition (the score headroom hypothesis), the game-over flag
is set on that same tick exactly when (a) thrust is on and the off-path
test fails for the post-movement car and road — the off-path test is
short-circuited away while thrust is off — or (b) the post-movement x
leaves `[0, CANVAS_WIDTH]`, condition (b) applying regardless of
thrust. -/
theorem overLost_iff (st : GameState) (inp : TickInput)
    (hgo : st.gameOver = false) (hp : inp.paused = false)
    (hbound : st.score + 10 * uncollectedCount st.coins + 50 < MAX_SCORE) :
    ((tick st inp).gameOver = true ↔
      (inp.thrust = true ∧
        isCarOnRoad (movePhase st inp).car (movePhase st inp).roadPath = false) ∨
      (movePhase st inp).car.x < 0 ∨ CANVAS_WIDTH < (movePhase st inp).car.x) := by
  unfold tick
  rw [if_neg (by simp [hgo, hp])]
  have hcp : (coinPhase (checkPhase (movePhase st inp) inp)).gameOver
      = (checkPhase (movePhase st inp) inp).gameOver := by
    apply coinPhase_gameOver
    rw [checkPhase_score, checkPhase_coins, movePhase_score]
    have hun := movePhase_uncollected_le st inp
    omega
  rw [hcp]
  have hck : (checkPhase (movePhase st inp) inp).gameOver
      = (((movePhase st inp).gameOver ||
          (inp.thrust && !isCarOnRoad (movePhase st inp).car (movePhase st inp).roadPath)) ||
         decide ((movePhase st inp).car.x < 0) ||
         decide ((movePhase st inp).car.x > CANVAS_WIDTH)) := rfl
  rw [hck, movePhase_gameOver, hgo]
  simp only [Bool.false_or, Bool.or_eq_true, Bool.and_eq_true, decide_eq_true_eq,
    Bool.not_eq_true']
  tauto

lemma roadStep_y (cnt i : ℕ) (r : ℚ) (prev : Point) :
    (roadStep cnt i r prev).y = prev.y - SEGMENT_WIDTH := rfl

lemma extendLoop_getLastD_y (rnd : ℕ → ℚ × ℚ × ℚ) (cnt : ℕ) :
    ∀ (fuel i : ℕ) (prev : Point),
      (((extendLoop rnd cnt i prev fuel).1).getLastD prev).y
        = prev.y - SEGMENT_WIDTH * fuel := by
  intro fuel
  induction fuel with
  | zero => intro i prev; simp [extendLoop]
  | succ n ih =>
    intro i prev
    show (((roadStep cnt i (rnd i).1 prev) ::
        (extendLoop rnd cnt (i + 1) (roadStep cnt i (rnd i).1 prev) n).1).getLastD prev).y
      = prev.y - SEGMENT_WIDTH * (n + 1 : ℕ)
    rw [List.getLastD_cons, ih (i + 1) (roadStep cnt i (rnd i).1 prev), roadStep_y]
    push_cast
    ring

lemma lastY_of_getLast? {l : List Point} {p : Point} (h : l.getLast? = some p) :
    lastY l = p.y := by
  simp [lastY, h]

lemma getLast?_extendRoad (rnd : ℕ → ℚ × ℚ × ℚ) (path : List Point) (coins : List Coin)
    (h : path ≠ []) :
    ∃ q, (extendRoad rnd path coins).1.getLast? = some q ∧
      q.y = lastY path - SEGMENT_WIDTH * 5 := by
  unfold extendRoad
  match hl : path.getLast? with
  | none =>
    rw [List.getLast?_eq_none_iff] at hl
    exact absurd hl h
  | some lastPoint =>
    have hne : (extendLoop rnd path.length 0 lastPoint 5).1 ≠ [] := by
      have := extendLoop_length rnd path.length 5 0 lastPoint
      intro hcon
      rw [hcon] at this
      simp at this
    have hsome : ((extendLoop rnd path.length 0 lastPoint 5).1.getLast?).isSome :=
      List.getLast?_isSome.mpr hne
    obtain ⟨q, hq⟩ := Option.isSome_iff_exists.mp hsome
    refine ⟨q, ?_, ?_⟩
    · rw [List.getLast?_append, hq]
      rfl
    · have hd := extendLoop_getLastD_y rnd path.length 5 0 lastPoint
      rw [List.getLastD_eq_getLast?, hq] at hd
      have hly : lastY path = lastPoint.y := lastY_of_getLast? hl
      rw [hly]
      simpa using hd

lemma movePhase_roadPath (st : GameState) (inp : TickInput) :
    (movePhase st inp).roadPath =
      (if inp.thrust = true then
        (if topOfRoad st > -ROAD_EXTEND_THRESHOLD
         then (extendRoad inp.rnd st.roadPath st.coins).1 else st.roadPath)
       else st.roadPath) := by
  unfold movePhase
  split_ifs <;> simp

lemma movePhase_cameraOffsetY (st : GameState) (inp : TickInput) :
    (movePhase st inp).cameraOffsetY =
      (if inp.thrust = true then
        (if st.car.y + inp.s * MOVE_SPEED < CANVAS_HEIGHT / 2
         then st.cameraOffsetY + (CANVAS_HEIGHT / 2 - (st.car.y + inp.s * MOVE_SPEED))
         else st.cameraOffsetY)
       else st.cameraOffsetY) := by
  unfold movePhase
  split_ifs <;> simp [*]

lemma movePhase_carY (st : GameState) (inp : TickInput) :
    (movePhase st inp).car.y =
      (if inp.thrust = true then
        (if st.car.y + inp.s * MOVE_SPEED < CANVAS_HEIGHT / 2
         then CANVAS_HEIGHT / 2 else st.car.y + inp.s * MOVE_SPEED)
       else st.car.y) := by
  unfold movePhase
  split_ifs <;> simp [*]

lemma movePhase_horizonInv (st : GameState) (inp : TickInput)
    (hs : -1 ≤ inp.s ∧ inp.s ≤ 1) (h : horizonInv st) :
    horizonInv (movePhase st inp) := by
  obtain ⟨h1, h2, h3⟩ := h
  unfold horizonInv topOfRoad
  rw [movePhase_roadPath, movePhase_cameraOffsetY, movePhase_carY]
  have hsm : -MOVE_SPEED ≤ inp.s * MOVE_SPEED ∧ inp.s * MOVE_SPEED ≤ MOVE_SPEED := by
    unfold MOVE_SPEED
    constructor <;> nlinarith [hs.1, hs.2]
  by_cases ht : inp.thrust = true
  · rw [if_pos ht, if_pos ht, if_pos ht]
    unfold topOfRoad at h3
    by_cases hext : topOfRoad st > -ROAD_EXTEND_THRESHOLD
    · rw [if_pos hext]
      obtain ⟨q, hq, hqy⟩ := getLast?_extendRoad inp.rnd st.roadPath st.coins h1
      have hne : (extendRoad inp.rnd st.roadPath st.coins).1 ≠ [] :=
        List.getLast?_isSome.mp (by rw [hq]; rfl)
      have hlY : lastY (extendRoad inp.rnd st.roadPath st.coins).1 = q.y :=
        lastY_of_getLast? hq
      refine ⟨hne, ?_, ?_⟩
      · split_ifs with hadj
        · exact le_refl _
        · push_neg at hadj
          exact hadj
      · rw [hlY, hqy]
        have e1 : ROAD_EXTEND_THRESHOLD = (200 : ℚ) := rfl
        have e2 : MOVE_SPEED = (6 : ℚ) := rfl
        have e3 : SEGMENT_WIDTH = (60 : ℚ) := rfl
        have e4 : CANVAS_HEIGHT = (600 : ℚ) := rfl
        have hm := hsm.1
        split_ifs with hadj
        · linarith
        · linarith
    · rw [if_neg hext]
      push_neg at hext
      unfold topOfRoad at hext
      refine ⟨h1, ?_, ?_⟩
      · split_ifs with hadj
        · exact le_refl _
        · push_neg at hadj
          exact hadj
      · have e1 : ROAD_EXTEND_THRESHOLD = (200 : ℚ) := rfl
        have e2 : MOVE_SPEED = (6 : ℚ) := rfl
        have e4 : CANVAS_HEIGHT = (600 : ℚ) := rfl
        have hm := hsm.1
        split_ifs with hadj
        · linarith
        · linarith
  · rw [if_neg ht, if_neg ht, if_neg ht]
    exact ⟨h1, h2, h3⟩

lemma tick_horizonInv (st : GameState) (inp : TickInput)
    (hs : -1 ≤ inp.s ∧ inp.s ≤ 1) (h : horizonInv st) :
    horizonInv (tick st inp) := by
  unfold tick
  split
  · exact h
  · have hm := movePhase_horizonInv st inp hs h
    unfold horizonInv topOfRoad at hm ⊢
    simpa [coinPhase_roadPath, coinPhase_car, coinPhase_cameraOffsetY,
      checkPhase_roadPath, checkPhase_car, checkPhase_cameraOffsetY] using hm

lemma initLoop_getLastD_y (rdir : ℕ → ℚ) :
    ∀ (fuel i : ℕ) (prev : Point),
      (((initLoop rdir i prev fuel)).getLastD prev).y = prev.y - SEGMENT_WIDTH * fuel := by
  intro fuel
  induction fuel with
  | zero => intro i prev; simp [initLoop]
  | succ n ih =>
    intro i prev
    show (((roadStep 0 i (rdir i) prev) ::
        initLoop rdir (i + 1) (roadStep 0 i (rdir i) prev) n).getLastD prev).y
      = prev.y - SEGMENT_WIDTH * (n + 1 : ℕ)
    rw [List.getLastD_cons, ih (i + 1) (roadStep 0 i (rdir i) prev), roadStep_y]
    push_cast
    ring

lemma resetState_horizonInv (rdir : ℕ → ℚ) (rcoin : ℕ → ℚ × ℚ) :
    horizonInv (resetState rdir rcoin) := by
  unfold horizonInv
  refine ⟨by simp [resetState, initializeRoad], by norm_num [resetState, CANVAS_HEIGHT], ?_⟩
  have htop : topOfRoad (resetState rdir rcoin) = lastY (initializeRoad rdir) := by
    simp [topOfRoad, resetState]
  rw [htop]
  have hd := initLoop_getLastD_y rdir 15 0 ⟨CANVAS_WIDTH / 2, CANVAS_HEIGHT⟩
  have hlY : lastY (initializeRoad rdir) =
      ((initLoop rdir 0 ⟨CANVAS_WIDTH / 2, CANVAS_HEIGHT⟩ 15).getLastD
        ⟨CANVAS_WIDTH / 2, CANVAS_HEIGHT⟩).y := by
    unfold initializeRoad lastY
    rw [List.getLast?_cons, ← List.getLastD_eq_getLast?]
    rfl
  rw [hlY, hd]
  norm_num [CANVAS_HEIGHT, SEGMENT_WIDTH, ROAD_EXTEND_THRESHOLD, MOVE_SPEED]

lemma run_horizonInv (inputs : List TickInput) :
    ∀ (st : GameState), (∀ inp ∈ inputs, -1 ≤ inp.s ∧ inp.s ≤ 1) →
      horizonInv st → horizonInv (run st inputs) := by
  induction inputs with
  | nil => intro st _ h; exact h
  | cons inp rest ih =>
    intro st hall h
    exact ih _ (fun i hi => hall i (List.mem_cons_of_mem inp hi))
      (tick_horizonInv st inp (hall inp (List.mem_cons_self inp rest)) h)

/-- Claim C7: (i) in every run from a reset state (with the sine oracle
in `[-1, 1]`), the road stays non-empty and the generated horizon stays
at least `ROAD_EXTEND_THRESHOLD - MOVE_SPEED` above the screen top —
the reachable-state invariant; (ii) whenever `extendRoad` is invoked in
the trigger window (horizon within the extend threshold, which by (i) is
the only way a run invokes it), the new horizon is again beyond the
threshold afterward and the resulting path has at least 2 points. -/
theorem extend_no_starvation :
    (∀ (rdir : ℕ → ℚ) (rcoin : ℕ → ℚ × ℚ) (inputs : List TickInput),
        (∀ inp ∈ inputs, -1 ≤ inp.s ∧ inp.s ≤ 1) →
        (run (resetState rdir rcoin) inputs).roadPath ≠ [] ∧
        topOfRoad (run (resetState rdir rcoin) inputs) ≤
          -ROAD_EXTEND_THRESHOLD + MOVE_SPEED) ∧
    (∀ (st : GameState) (rnd : ℕ → ℚ × ℚ × ℚ),
        st.roadPath ≠ [] →
        -ROAD_EXTEND_THRESHOLD < topOfRoad st →
        topOfRoad st ≤ -ROAD_EXTEND_THRESHOLD + MOVE_SPEED →
        lastY (extendRoad rnd st.roadPath st.coins).1 + st.cameraOffsetY ≤
          -ROAD_EXTEND_THRESHOLD ∧
        2 ≤ (extendRoad rnd st.roadPath st.coins).1.length) := by
  constructor
  · intro rdir rcoin inputs hall
    have := run_horizonInv inputs _ hall (resetState_horizonInv rdir rcoin)
    exact ⟨this.1, this.2.2⟩
  · intro st rnd hne _ hinv
    constructor
    · obtain ⟨q, hq, hqy⟩ := getLast?_extendRoad rnd st.roadPath st.coins hne
      rw [lastY_of_getLast? hq, hqy]
      unfold topOfRoad at hinv
      have e1 : ROAD_EXTEND_THRESHOLD = (200 : ℚ) := rfl
      have e2 : MOVE_SPEED = (6 : ℚ) := rfl
      have e3 : SEGMENT_WIDTH = (60 : ℚ) := rfl
      linarith
    · have h5 := extendRoad_length rnd st.roadPath st.coins hne
      omega

lemma zip_consec_mem {l : List Point} {i : ℕ} (h : i + 1 < l.length) (d : Point) :
    (l.getD i d, l.getD (i + 1) d) ∈ l.zip l.tail := by
  have h2 : i < l.length := by omega
  have h3 : i < l.tail.length := by
    rw [List.length_tail]
    omega
  have h1 : i < (l.zip l.tail).length := by
    rw [List.length_zip, List.length_tail]
    omega
  have hz : (l.zip l.tail)[i] = (l.getD i d, l.getD (i + 1) d) := by
    rw [List.getElem_zip, List.getElem_tail]
    rw [List.getD_eq_getElem l d h2, List.getD_eq_getElem l d h]
  rw [← hz]
  exact List.getElem_mem h1

lemma jitter_abs_le (a r : ℚ) (h0 : 0 ≤ r) (h1 : r < 1) :
    |a + (r - 1/2) * 40 - a| ≤ 20 := by
  have hx : a + (r - 1/2) * 40 - a = (r - 1/2) * 40 := by ring
  rw [hx, abs_le]
  constructor <;> nlinarith

lemma initializeCoins_placement (rnd : ℕ → ℚ × ℚ) (path : List Point)
    (hr : ∀ i, 0 ≤ (rnd i).2 ∧ (rnd i).2 < 1) :
    ∀ c ∈ initializeCoins rnd path,
      ∃ mp ∈ segmentMidpoints path, c.y = mp.y ∧ |c.x - mp.x| ≤ 20 ∧ c.collected = false := by
  intro c hc
  obtain ⟨i, hiMem, hf⟩ := List.mem_filterMap.mp hc
  rw [List.mem_range'] at hiMem
  obtain ⟨j, hj, hij⟩ := hiMem
  have hlt : i + 1 < path.length := by omega
  by_cases hrand : (rnd i).1 > 2/5
  · rw [if_pos hrand] at hf
    injection hf with hf
    subst hf
    refine ⟨⟨((path.getD i ⟨0, 0⟩).x + (path.getD (i + 1) ⟨0, 0⟩).x) / 2,
             ((path.getD i ⟨0, 0⟩).y + (path.getD (i + 1) ⟨0, 0⟩).y) / 2⟩, ?_, rfl, ?_, rfl⟩
    · unfold segmentMidpoints
      exact List.mem_map_of_mem _ (zip_consec_mem hlt ⟨0, 0⟩)
    · exact jitter_abs_le _ _ (hr i).1 (hr i).2
  · rw [if_neg hrand] at hf
    cases hf

lemma extendLoop_coins_placement (rnd : ℕ → ℚ × ℚ × ℚ) (cnt : ℕ)
    (hr : ∀ j, 0 ≤ (rnd j).2.2 ∧ (rnd j).2.2 < 1) :
    ∀ (fuel i : ℕ) (prev : Point), ∀ c ∈ (extendLoop rnd cnt i prev fuel).2,
      ∃ pt ∈ (extendLoop rnd cnt i prev fuel).1,
        c.y = pt.y ∧ |c.x - pt.x| ≤ 20 ∧ c.collected = false := by
  intro fuel
  induction fuel with
  | zero => intro i prev c hc; simp [extendLoop] at hc
  | succ n ih =>
    intro i prev c hc
    simp only [extendLoop, List.mem_append] at hc ⊢
    rcases hc with hc | hc
    · by_cases hrand : (rnd i).2.1 > 2/5
      · rw [if_pos hrand] at hc
        simp only [List.mem_singleton] at hc
        subst hc
        exact ⟨roadStep cnt i (rnd i).1 prev, List.mem_cons_self _ _, rfl,
          jitter_abs_le _ _ (hr i).1 (hr i).2, rfl⟩
      · rw [if_neg hrand] at hc
        simp at hc
    · obtain ⟨pt, hptMem, hpt⟩ := ih (i + 1) (roadStep cnt i (rnd i).1 prev) c hc
      exact ⟨pt, List.mem_cons_of_mem _ hptMem, hpt⟩

lemma extendRoad_coins_placement (rnd : ℕ → ℚ × ℚ × ℚ) (path : List Point)
    (coins : List Coin) (hr : ∀ j, 0 ≤ (rnd j).2.2 ∧ (rnd j).2.2 < 1) :
    ∀ c ∈ (extendRoad rnd path coins).2,
      c ∈ coins ∨ ∃ pt ∈ (extendRoad rnd path coins).1,
        c.y = pt.y ∧ |c.x - pt.x| ≤ 20 ∧ c.collected = false := by
  unfold extendRoad
  match hl : path.getLast? with
  | none => exact fun c hc => Or.inl hc
  | some lastPoint =>
    intro c hc
    simp only [List.mem_append] at hc
    rcases hc with hc | hc
    · exact Or.inl hc
    · obtain ⟨pt, hptMem, hpt⟩ :=
        extendLoop_coins_placement rnd path.length hr 5 0 lastPoint c hc
      exact Or.inr ⟨pt, List.mem_append_right _ hptMem, hpt⟩

/-- Claim C6 (amended): for each newly created segment the spawner
creates zero or one item with a fixed probability (`draw > 0.4`) and
bounded lateral jitter of at most 20 — but the two spawners place items
differently: during initialization every spawned item sits at a segment
midpoint plus jitter, while during extension every newly spawned item
sits at the newly appended path point (the segment's far endpoint) plus
jitter, not at the midpoint. -/
theorem coin_spawn_placement (rndi : ℕ → ℚ × ℚ) (rnde : ℕ → ℚ × ℚ × ℚ)
    (path epath : List Point) (coins : List Coin)
    (hri : ∀ i, 0 ≤ (rndi i).2 ∧ (rndi i).2 < 1)
    (hre : ∀ i, 0 ≤ (rnde i).2.2 ∧ (rnde i).2.2 < 1) :
    (∀ c ∈ initializeCoins rndi path,
       ∃ mp ∈ segmentMidpoints path, c.y = mp.y ∧ |c.x - mp.x| ≤ 20 ∧ c.collected = false) ∧
    (∀ c ∈ (extendRoad rnde epath coins).2,
       c ∈ coins ∨ ∃ pt ∈ (extendRoad rnde epath coins).1,
         c.y = pt.y ∧ |c.x - pt.x| ≤ 20 ∧ c.collected = false) ∧
    (extendRoad rnde epath coins).2.length ≤ coins.length + 5 := by
  refine ⟨initializeCoins_placement rndi path hri,
          extendRoad_coins_placement rnde epath coins hre, ?_⟩
  obtain ⟨newCoins, hdec, hlen⟩ := extendRoad_coins_decomp rnde epath coins
  rw [hdec, List.length_append]
  omega

/-- Claim C6 counterexample: with the concrete draw stream `c6rnd`
(every segment spawns, zero jitter) and the one-point path `c6path`,
`extendRoad` spawns coins, yet they do not all sit at segment midpoints:
each spawned coin sits at the newly appended path point, 30 pixels ahead
of the segment midpoint, refuting the claim that items are placed at the
segment midpoint during extension. -/
theorem coin_spawn_midpoint_cex :
    ¬ coinsAtMidpoints (extendRoad c6rnd c6path []).1 (extendRoad c6rnd c6path []).2 := by
  intro h
  have hmem : (⟨400, 540, false⟩ : Coin) ∈ (extendRoad c6rnd c6path []).2 := by
    have he : (extendRoad c6rnd c6path []).2 =
        [⟨400, 540, false⟩, ⟨400, 480, false⟩, ⟨352, 420, false⟩,
         ⟨352, 360, false⟩, ⟨352, 300, false⟩] := by
      norm_num [extendRoad, extendLoop, roadStep, clampRoadX, c6rnd, c6path,
        SEGMENT_WIDTH, ROAD_WIDTH, CANVAS_WIDTH]
    rw [he]
    exact List.mem_cons_self _ _
  obtain ⟨mp, hmpMem, hy, _⟩ := h _ hmem
  have hmids : segmentMidpoints (extendRoad c6rnd c6path []).1 =
      [⟨400, 570⟩, ⟨400, 510⟩, ⟨376, 450⟩, ⟨352, 390⟩, ⟨352, 330⟩] := by
    norm_num [segmentMidpoints, extendRoad, extendLoop, roadStep, clampRoadX, c6rnd, c6path,
      SEGMENT_WIDTH, ROAD_WIDTH, CANVAS_WIDTH, List.zip_cons_cons]
  rw [hmids] at hmpMem
  simp only [List.mem_cons, List.mem_singleton] at hmpMem
  rcases hmpMem with rfl | rfl | rfl | rfl | rfl | h0
  · norm_num at hy
  · norm_num at hy
  · norm_num at hy
  · norm_num at hy
  · norm_num at hy
  · simp at h0

/-- The witness state `wSt7` has a non-empty road. -/
lemma wSt7_roadPath_ne : wSt7.roadPath ≠ [] := by simp [wSt7]

/-- The witness state `wSt7` sits inside the extend-trigger window. -/
lemma wSt7_trigger : -ROAD_EXTEND_THRESHOLD < topOfRoad wSt7 := by
  norm_num [topOfRoad, lastY, wSt7, ROAD_EXTEND_THRESHOLD]

/-- The witness state `wSt7` satisfies the reachable-horizon bound. -/
lemma wSt7_window : topOfRoad wSt7 ≤ -ROAD_EXTEND_THRESHOLD + MOVE_SPEED := by
  norm_num [topOfRoad, lastY, wSt7, ROAD_EXTEND_THRESHOLD, MOVE_SPEED]

/-- The witness coin at y = -1000 is off screen. -/
lemma wCoinFar_vis : (⟨0, -1000, false⟩ : Coin).y + 0 < -50 ∨
    (⟨0, -1000, false⟩ : Coin).y + 0 > CANVAS_HEIGHT + 50 :=
  Or.inl (by norm_num)

/-- Witness for the amended off-path characterization at a concrete car
and 2-point path. -/
theorem offPath_iff_minDist_witness :
    2 ≤ cexPath.length ∧
    (∃ m, specMinDistSq cexCar cexPath = some m ∧
      (isCarOnRoad cexCar cexPath = false ↔ onRoadThreshSq ≤ m)) :=
  ⟨by simp [cexPath], offPath_iff_minDist cexCar cexPath (by simp [cexPath])⟩

/-- Witness for the Over(Lost) transition characterization at a concrete
Running state and quiescent input. -/
theorem overLost_iff_witness :
    wSt.gameOver = false ∧ wInp.paused = false ∧
    wSt.score + 10 * uncollectedCount wSt.coins + 50 < MAX_SCORE ∧
    ((tick wSt wInp).gameOver = true ↔
      (wInp.thrust = true ∧
        isCarOnRoad (movePhase wSt wInp).car (movePhase wSt wInp).roadPath = false) ∨
      (movePhase wSt wInp).car.x < 0 ∨ CANVAS_WIDTH < (movePhase wSt wInp).car.x) :=
  ⟨rfl, rfl, by decide, overLost_iff wSt wInp rfl rfl (by decide)⟩

/-- Witness for the score bookkeeping properties at a concrete run and an
already-collected coin. -/
theorem score_counts_collected_witness :
    (⟨0, 0, true⟩ : Coin).collected = true ∧
    ((run (resetState wRdir wRcoin) []).score =
      10 * collectedCount (run (resetState wRdir wRcoin) []).coins ∧
     (run (resetState wRdir wRcoin) []).score ≤
      (run (resetState wRdir wRcoin) ([] ++ [wInp])).score ∧
     coinStep ⟨400, 500, 0, 0⟩ 0 wAcc ⟨0, 0, true⟩ = (wAcc, ⟨0, 0, true⟩)) :=
  ⟨rfl, score_counts_collected wRdir wRcoin [] wInp ⟨400, 500, 0, 0⟩ 0 wAcc ⟨0, 0, true⟩ rfl⟩

/-- Witness for the path x-bounds at the initial path point. -/
theorem path_x_within_bounds_witness :
    (⟨CANVAS_WIDTH / 2, CANVAS_HEIGHT⟩ : Point) ∈
      (extendN wRnds 0
        (initializeRoad wRdir, initializeCoins wRcoin (initializeRoad wRdir))).1 ∧
    (ROAD_WIDTH / 2 ≤ (⟨CANVAS_WIDTH / 2, CANVAS_HEIGHT⟩ : Point).x ∧
     (⟨CANVAS_WIDTH / 2, CANVAS_HEIGHT⟩ : Point).x ≤ CANVAS_WIDTH - ROAD_WIDTH / 2) :=
  ⟨List.mem_cons_self _ _,
   path_x_within_bounds wRdir wRcoin wRnds 0 _ (List.mem_cons_self _ _)⟩

/-- Witness for the amended spawn-placement theorem: the per-extension
coin-count bound at concrete oracles. -/
theorem coin_spawn_placement_witness :
    (extendRoad c6rnd c6path []).2.length ≤ ([] : List Coin).length + 5 :=
  (coin_spawn_placement wRcoin c6rnd c6path c6path []
    (fun _ => ⟨one_half_pos.le, one_half_lt_one⟩)
    (fun _ => ⟨one_half_pos.le, one_half_lt_one⟩)).2.2

/-- Witness for the no-starvation theorem at the empty run and at a
concrete trigger-window state. -/
theorem extend_no_starvation_witness :
    ((run (resetState wRdir wRcoin) []).roadPath ≠ [] ∧
      topOfRoad (run (resetState wRdir wRcoin) []) ≤
        -ROAD_EXTEND_THRESHOLD + MOVE_SPEED) ∧
    wSt7.roadPath ≠ [] ∧
    -ROAD_EXTEND_THRESHOLD < topOfRoad wSt7 ∧
    topOfRoad wSt7 ≤ -ROAD_EXTEND_THRESHOLD + MOVE_SPEED ∧
    (lastY (extendRoad wRnd0 wSt7.roadPath wSt7.coins).1 + wSt7.cameraOffsetY ≤
        -ROAD_EXTEND_THRESHOLD ∧
      2 ≤ (extendRoad wRnd0 wSt7.roadPath wSt7.coins).1.length) :=
  ⟨extend_no_starvation.1 wRdir wRcoin [] (fun inp h => absurd h (List.not_mem_nil inp)),
   wSt7_roadPath_ne, wSt7_trigger, wSt7_window,
   extend_no_starvation.2 wSt7 wRnd0 wSt7_roadPath_ne wSt7_trigger wSt7_window⟩

/-- Witness for the degenerate-segment distance at a concrete point. -/
theorem segDist_zero_length_witness :
    (⟨1, 2⟩ : Point) = (⟨1, 2⟩ : Point) ∧
    segDistSq 3 4 ⟨1, 2⟩ ⟨1, 2⟩ = distSq 3 4 (⟨1, 2⟩ : Point).x (⟨1, 2⟩ : Point).y :=
  ⟨rfl, segDist_zero_length 3 4 ⟨1, 2⟩ ⟨1, 2⟩ rfl⟩

/-- Witness for the extend-access safety at a concrete non-empty path. -/
theorem extend_access_safe_witness :
    cexPath ≠ [] ∧
    ((initializeRoad wRdir).length = 16 ∧
     (cexPath.getLast?).isSome = true ∧
     (extendRoad wRnd0 cexPath []).1 ≠ [] ∧
     (extendRoad wRnd0 cexPath []).1.length = cexPath.length + 5) :=
  ⟨by simp [cexPath], extend_access_safe wRdir wRnd0 cexPath [] (by simp [cexPath])⟩

/-- Witness for the off-screen coin cull at a concrete far-away coin. -/
theorem coin_offscreen_skip_witness :
    (⟨0, -1000, false⟩ : Coin).collected = false ∧
    ((⟨0, -1000, false⟩ : Coin).y + 0 < -50 ∨
      (⟨0, -1000, false⟩ : Coin).y + 0 > CANVAS_HEIGHT + 50) ∧
    coinStep ⟨400, 500, 0, 0⟩ 0 wAcc ⟨0, -1000, false⟩ = (wAcc, ⟨0, -1000, false⟩) :=
  ⟨rfl, wCoinFar_vis,
   coin_offscreen_skip ⟨400, 500, 0, 0⟩ 0 wAcc ⟨0, -1000, false⟩ rfl wCoinFar_vis⟩

end CarRush
